import Mathlib

/-!
Verification of `agent/consul/state/stream_event_service_health.go`.

The Go file derives service-health change events from the ordered list of
operations of one committed transaction:

* `txnServiceHealthEvents` (lines 14-76) reduces the operations into a
  `map[string]bool` from node name to "deregister" intent, expands every
  entry into events (a single deregister event for removed nodes, the
  resolved events of `nodeServiceHealth` otherwise), and sorts the result
  with `sort.Slice`;
* `nodeServiceHealth` (lines 79-92) joins the snapshot reads
  `s.nodeServicesTxn` and `s.parseCheckServiceNodes` (both outside this
  file) with `checkServiceNodesToServiceHealth`;
* `checkServiceNodesToServiceHealth` (lines 97-128) converts resolved
  `CheckServiceNode`s into register events, either collected in a slice or
  appended one at a time to a `stream.EventBuffer`;
* `serviceHealthDeregisterEvent` (lines 132-145) builds the deregister
  event for one node.

Modelling conventions used throughout:

* Go strings are Lean `String`s; the bytewise Go comparison `<` is modelled
  on the character list (`String.data`), which agrees with it on the ASCII
  identifiers used here.  `uint64` indexes are `Nat` (no arithmetic is
  performed on them).
* structures carry exactly the fields this file reads; fields the file
  never touches (addresses, metadata, check output, ...) are omitted.
* the Go map `nodes` is modelled by an association list with at most one
  entry per key; since Go map iteration order is unspecified and
  randomized, every statement about the expansion loop quantifies over an
  arbitrary permutation `iter` of the entries.
* fallible calls returning `(value, error)` pairs are modelled as Lean
  pairs `α × Option Err` with opaque `Err := String` values.
-/

/-- Transaction verbs of `api.TxnNodeOp` (`api.NodeGet`, `api.NodeSet`,
`api.NodeCAS`, `api.NodeDelete`, `api.NodeDeleteCAS`). -/
inductive NodeVerb where
  | NodeGet
  | NodeSet
  | NodeCAS
  | NodeDelete
  | NodeDeleteCAS
deriving DecidableEq

/-- Transaction verbs of `api.TxnServiceOp`. -/
inductive ServiceVerb where
  | ServiceGet
  | ServiceSet
  | ServiceCAS
  | ServiceDelete
  | ServiceDeleteCAS
deriving DecidableEq

/-- Transaction verbs of `api.TxnCheckOp`. -/
inductive CheckVerb where
  | CheckGet
  | CheckSet
  | CheckCAS
  | CheckDelete
  | CheckDeleteCAS
deriving DecidableEq

/-- A catalog node (`structs.Node` and `stream.Node`); only the node name
`Node.Node` is read by the verified file. -/
structure Node where
  Node : String
deriving DecidableEq

/-- A service instance on a node (`structs.NodeService` and the service part
of `stream.CheckServiceNode`); the file reads the service name `Service`,
and `ID` keeps distinct instances of one service distinguishable. -/
structure NodeService where
  ID : String
  Service : String
deriving DecidableEq

/-- A health check (`structs.HealthCheck`); the file reads only the owning
node `Check.Node`, the other fields ride along in the payload. -/
structure HealthCheck where
  Node : String
  CheckID : String
  Status : String
deriving DecidableEq

/-- The denormalized health view of one service instance (or bare node):
`structs.CheckServiceNode` and its `stream` counterpart. -/
structure CheckServiceNode where
  Node : Node
  Service : Option NodeService
  Checks : List HealthCheck
deriving DecidableEq

/-- Event topics used by this file: `stream.Topic_ServiceHealth` and
`stream.Topic_ServiceHealthConnect`. -/
inductive Topic where
  | ServiceHealth
  | ServiceHealthConnect
deriving DecidableEq

/-- Catalog operation of a `stream.ServiceHealthUpdate`:
`stream.CatalogOp_Register` or `stream.CatalogOp_Deregister`. -/
inductive CatalogOp where
  | Register
  | Deregister
deriving DecidableEq

/-- Payload body `stream.ServiceHealthUpdate`. -/
structure ServiceHealthUpdate where
  Op : CatalogOp
  CheckServiceNode : CheckServiceNode
deriving DecidableEq

/-- Event payload; this file only ever constructs the
`stream.Event_ServiceHealth` variant, so it is the single constructor. -/
inductive EventPayload where
  | ServiceHealth (update : ServiceHealthUpdate)
deriving DecidableEq

/-- A `stream.Event` with the fields this file writes; `Key` defaults to the
Go zero value `""` when the source leaves it unset. -/
structure Event where
  Topic : Topic
  Index : Nat
  Key : String
  Payload : EventPayload
deriving DecidableEq

/-- Opaque error values of the Go `error` results. -/
abbrev Err := String

/-- Outcome of the resolver `nodeServiceHealth(s, tx, idx, node)` for a node
name, with the store, transaction and index fixed: the event slice and the
error of the Go `([]stream.Event, error)` pair. -/
abbrev Resolver := String → List Event × Option Err

/-- One `structs.TxnNodeOp` (verb plus the node record it targets). -/
structure TxnNodeOp where
  Verb : NodeVerb
  Node : Node
deriving DecidableEq

/-- One `structs.TxnServiceOp`; `Node` is the owning node name and
`Service` the service record. -/
structure TxnServiceOp where
  Verb : ServiceVerb
  Node : String
  Service : NodeService
deriving DecidableEq

/-- One `structs.TxnCheckOp`; the owning node name is `Check.Node`. -/
structure TxnCheckOp where
  Verb : CheckVerb
  Check : HealthCheck
deriving DecidableEq

/-- One `structs.TxnOp`: a record with at most one of the catalog payloads
set, mirroring the nil-able pointer fields the Go switch inspects.  A record
with several payloads set is dispatched on the first one in the order
`Node`, `Service`, `Check`, exactly like the Go `switch`; a record with none
set falls into the empty `default:` branch. -/
structure TxnOp where
  Node : Option TxnNodeOp
  Service : Option TxnServiceOp
  Check : Option TxnCheckOp
deriving DecidableEq

/-- A transaction's ordered operation list (`structs.TxnOps`). -/
abbrev TxnOps := List TxnOp

/-- The contribution of one operation to the `nodes` map, read off the
switch in `txnServiceHealthEvents` (lines 21-40): `none` models `continue`
on a `Get` verb and the empty `default:` branch, `some (node, removed)`
models the assignment `nodes[node] = removed`.  Only a node operation with
verb `NodeDelete` or `NodeDeleteCAS` yields `removed = true`. -/
def opIntent (op : TxnOp) : Option (String × Bool) :=
  match op.Node with
  | some n =>
    if n.Verb = NodeVerb.NodeGet then none
    else some (n.Node.Node, decide (n.Verb = NodeVerb.NodeDelete ∨ n.Verb = NodeVerb.NodeDeleteCAS))
  | none =>
    match op.Service with
    | some s =>
      if s.Verb = ServiceVerb.ServiceGet then none
      else some (s.Node, false)
    | none =>
      match op.Check with
      | some c =>
        if c.Verb = CheckVerb.CheckGet then none
        else some (c.Check.Node, false)
      | none => none

/-- Content of the Go map assignment `nodes[k] = v` on an association list
with at most one entry per key: overwrite in place, or append a new entry. -/
def nodesMapSet (m : List (String × Bool)) (k : String) (v : Bool) : List (String × Bool) :=
  match m with
  | [] => [(k, v)]
  | (k2, v2) :: rest => if k2 = k then (k2, v) :: rest else (k2, v2) :: nodesMapSet rest k v

/-- The reduction loop of `txnServiceHealthEvents` (lines 20-41): fold the
operations in commit order into the `nodes` map. -/
def reduceNodes (ops : TxnOps) : List (String × Bool) :=
  ops.foldl (fun m op => match opIntent op with | none => m | some kv => nodesMapSet m kv.1 kv.2) []

/-- Go map read `nodes[k]` on the association-list model. -/
def nodesLookup (m : List (String × Bool)) (k : String) : Option Bool :=
  (m.find? (fun p => decide (p.1 = k))).map (fun p => p.2)

/-- The function `serviceHealthDeregisterEvent` (lines 132-145): the
deregister event for one node, built from the node name alone. -/
def serviceHealthDeregisterEvent (idx : Nat) (node : String) : Event :=
  { Topic := Topic.ServiceHealth
    Index := idx
    Key := ""
    Payload := EventPayload.ServiceHealth
      { Op := CatalogOp.Deregister
        CheckServiceNode := { Node := { Node := node }, Service := none, Checks := [] } } }

/-- The external `stream.EventBuffer`, observed through the sequence of
batches handed to its `Append` method. -/
abbrev EventBuffer := List (List Event)

/-- The `buf.Append(batch)` call of the external buffer. -/
def bufferAppend (b : EventBuffer) (batch : List Event) : EventBuffer := b ++ [batch]

/-- The external conversion `stream.ToCheckServiceNode`; the structs and
stream versions of `CheckServiceNode` share one model type, so the
conversion is the identity. -/
def ToCheckServiceNode (n : CheckServiceNode) : CheckServiceNode := n

/-- The function `checkServiceNodesToServiceHealth` (lines 97-128): one
register event per resolved `CheckServiceNode`, appended one at a time to
the buffer when one is supplied and collected into the returned slice
otherwise.  The returned pair carries the slice and the final buffer. -/
def checkServiceNodesToServiceHealth (idx : Nat) (nodes : List CheckServiceNode)
    (buf : Option EventBuffer) (connect : Bool) : List Event × Option EventBuffer :=
  match nodes with
  | [] => ([], buf)
  | n :: rest =>
    let event : Event :=
      { Topic := if connect then Topic.ServiceHealthConnect else Topic.ServiceHealth
        Index := idx
        Key := match n.Service with | some s => s.Service | none => ""
        Payload := EventPayload.ServiceHealth
          { Op := CatalogOp.Register, CheckServiceNode := ToCheckServiceNode n } }
    match buf with
    | some b => checkServiceNodesToServiceHealth idx rest (some (bufferAppend b [event])) connect
    | none =>
      let res := checkServiceNodesToServiceHealth idx rest none connect
      (event :: res.1, res.2)

/-- The function `nodeServiceHealth` (lines 79-92), parametrized by the two
snapshot reads `s.nodeServicesTxn` and `s.parseCheckServiceNodes` that live
outside this file: each error is returned with a nil event slice, otherwise
the resolved nodes are converted in collecting mode with `connect = false`. -/
def nodeServiceHealth (nodeServicesTxn : String → List NodeService × Option Err)
    (parseCheckServiceNodes : List NodeService → List CheckServiceNode × Option Err)
    (idx : Nat) (nodeName : String) : List Event × Option Err :=
  let svcRes := nodeServicesTxn nodeName
  match svcRes.2 with
  | some e => ([], some e)
  | none =>
    let nodesRes := parseCheckServiceNodes svcRes.1
    match nodesRes.2 with
    | some e => ([], some e)
    | none => ((checkServiceNodesToServiceHealth idx nodesRes.1 none false).1, none)

/-- The expansion loop of `txnServiceHealthEvents` (lines 43-57) over one
iteration order of the `nodes` map: a removed node contributes its
deregister event without consulting the resolver, any other node
contributes the resolver's events, and the first resolver error aborts the
whole loop with a nil event slice. -/
def collectServiceHealthEvents (resolver : Resolver) (idx : Nat) :
    List (String × Bool) → List Event × Option Err
  | [] => ([], none)
  | (node, deregister) :: rest =>
    if deregister then
      match collectServiceHealthEvents resolver idx rest with
      | (evs, none) => (serviceHealthDeregisterEvent idx node :: evs, none)
      | (_, some e) => ([], some e)
    else
      match resolver node with
      | (_, some e) => ([], some e)
      | (evt, none) =>
        match collectServiceHealthEvents resolver idx rest with
        | (evs, none) => (evt ++ evs, none)
        | (_, some e) => ([], some e)

/-- The expansion loop again, instrumented with the list of node names the
resolver is invoked on; the first component is literally
`collectServiceHealthEvents`. -/
def collectServiceHealthEventsLog (resolver : Resolver) (idx : Nat) :
    List (String × Bool) → (List Event × Option Err) × List String
  | [] => (([], none), [])
  | (node, deregister) :: rest =>
    if deregister then
      match collectServiceHealthEventsLog resolver idx rest with
      | ((evs, none), log) => ((serviceHealthDeregisterEvent idx node :: evs, none), log)
      | ((_, some e), log) => (([], some e), log)
    else
      match resolver node with
      | (_, some e) => (([], some e), [node])
      | (evt, none) =>
        match collectServiceHealthEventsLog resolver idx rest with
        | ((evs, none), log) => ((evt ++ evs, none), node :: log)
        | ((_, some e), log) => (([], some e), node :: log)

/-- Accessor `event.GetServiceHealth().CheckServiceNode` as used by the sort
comparator; total because this file only builds service-health payloads. -/
def eventServiceHealthCSN (e : Event) : CheckServiceNode :=
  match e.Payload with
  | EventPayload.ServiceHealth u => u.CheckServiceNode

/-- The `svcA` and `svcB` computation of the comparator (lines 66-72): the
service name when a service is present, the Go zero value `""` otherwise. -/
def csnServiceName (c : CheckServiceNode) : String :=
  match c.Service with
  | some s => s.Service
  | none => ""

/-- Node name carried by an event's payload. -/
def eventNodeName (e : Event) : String := (eventServiceHealthCSN e).Node.Node

/-- Bytewise Go string comparison `a < b`, decidably on the character
lists. -/
def strLtB (a b : String) : Bool := decide (a.data < b.data)

/-- The comparator closure passed to `sort.Slice` (lines 58-73), with `a`
standing for `events[i].GetServiceHealth().CheckServiceNode` and `b` for
`events[j].GetServiceHealth().CheckServiceNode`. -/
def eventLess (x y : Event) : Bool :=
  if (eventServiceHealthCSN x).Node.Node ≠ (eventServiceHealthCSN y).Node.Node then
    strLtB (eventServiceHealthCSN x).Node.Node (eventServiceHealthCSN y).Node.Node
  else
    strLtB (csnServiceName (eventServiceHealthCSN x)) (csnServiceName (eventServiceHealthCSN y))

/-- Documented contract of `sort.Slice(events, less)`: the slice is
reordered into a permutation that is sorted with respect to the comparator.
The contract deliberately promises nothing else; in particular `sort.Slice`
is documented as not guaranteed to be stable, so elements that compare
equal may appear in any order. -/
def SortSliceContract (less : Event → Event → Bool) (input output : List Event) : Prop :=
  output.Perm input ∧ output.Pairwise (fun x y => less y x = false)

/-- Default event used only to give list reads a total type; every read in
the sorting model is in bounds. -/
def dummyEvent : Event := serviceHealthDeregisterEvent 0 ""

/-- Read `l[i]` in the sorting model. -/
def eventsGetD (l : List Event) (i : Nat) : Event := l.getD i dummyEvent

/-- The `data.Swap(i, j)` primitive of `sort.Slice` on the list model. -/
def eventsSwap (l : List Event) (i j : Nat) : List Event :=
  match l.get? i, l.get? j with
  | some a, some b => (l.set i b).set j a
  | _, _ => l

/-- The Shell-sort pass with gap 6 that Go's pre-1.19 `sort.Slice`
implementation (`quickSort_func` in `go/src/sort/zfuncversion.go`) runs on
every slice of at most 12 elements before the final insertion sort:
`for i := a + 6; i < b; i++ { if less(i, i-6) { swap(i, i-6) } }`. -/
def shellSortPass (less : Event → Event → Bool) (l : List Event) : List Event :=
  ((List.range l.length).drop 6).foldl
    (fun acc i => if less (eventsGetD acc i) (eventsGetD acc (i - 6)) then eventsSwap acc i (i - 6) else acc)
    l

/-- Inner loop of `insertionSort_func`:
`for j := i; j > a && less(j, j-1); j-- { swap(j, j-1) }`. -/
def insertionSortInner (less : Event → Event → Bool) (l : List Event) : Nat → List Event
  | 0 => l
  | j + 1 =>
    if less (eventsGetD l (j + 1)) (eventsGetD l j) then
      insertionSortInner less (eventsSwap l (j + 1) j) j
    else l

/-- The `insertionSort_func` of Go's `sort` package. -/
def insertionSortGo (less : Event → Event → Bool) (l : List Event) : List Event :=
  ((List.range l.length).drop 1).foldl (fun acc i => insertionSortInner less acc i) l

/-- Behaviour of `sort.Slice` on slices of at most 12 elements as shipped
with the Go toolchains contemporary to this repository (before the Go 1.19
pdqsort rewrite): the quicksort loop `for b-a > 12` is never entered, so the
call is exactly the gap-6 Shell-sort pass followed by an insertion sort.
Slices longer than 12 elements take the quicksort path, which is not
modelled; no theorem below applies this definition to such a slice.  Note
the Shell-sort pass can reorder elements that compare equal, so this sort
is not stable. -/
def sortSliceSmall (less : Event → Event → Bool) (l : List Event) : List Event :=
  if l.length ≤ 12 then insertionSortGo less (shellSortPass less l) else l

/-- One run of `txnServiceHealthEvents` (lines 14-76) at a given iteration
order `iter` of the `nodes` map, with the concrete small-slice sort. -/
def txnServiceHealthEventsRun (resolver : Resolver) (idx : Nat)
    (iter : List (String × Bool)) : List Event × Option Err :=
  match collectServiceHealthEvents resolver idx iter with
  | (evs, none) => (sortSliceSmall eventLess evs, none)
  | (_, some e) => ([], some e)

/-- The function `txnServiceHealthEvents` (lines 14-76) as a relation
between a transaction's inputs and its returned `([]stream.Event, error)`
pair: some unspecified iteration order of the `nodes` map is expanded by
the collection loop, and on success the collected events are reordered by
`sort.Slice` according to its contract.  All behaviours of the Go function
for any map iteration order and any conforming sort are related. -/
def txnServiceHealthEvents (resolver : Resolver) (idx : Nat) (ops : TxnOps)
    (out : List Event × Option Err) : Prop :=
  ∃ iter : List (String × Bool), iter.Perm (reduceNodes ops) ∧
    ((collectServiceHealthEvents resolver idx iter).2 = none →
      ∃ sortedEvs, SortSliceContract eventLess (collectServiceHealthEvents resolver idx iter).1 sortedEvs ∧
        out = (sortedEvs, none)) ∧
    (∀ e, (collectServiceHealthEvents resolver idx iter).2 = some e → out = ([], some e))

/-- Claim C10: a deregister event always carries the plain health topic
(never the connect-aware one), an empty routing key, the `Deregister`
operation, the transaction's index, and a payload holding only the node
identity, with no service and no check states. -/
theorem claim_C10_deregister_event_shape :
    ∀ (idx : Nat) (node : String),
      (serviceHealthDeregisterEvent idx node).Topic = Topic.ServiceHealth ∧
      (serviceHealthDeregisterEvent idx node).Topic ≠ Topic.ServiceHealthConnect ∧
      (serviceHealthDeregisterEvent idx node).Key = "" ∧
      (serviceHealthDeregisterEvent idx node).Index = idx ∧
      (serviceHealthDeregisterEvent idx node).Payload = EventPayload.ServiceHealth
        { Op := CatalogOp.Deregister
          CheckServiceNode := { Node := { Node := node }, Service := none, Checks := [] } } := by
  intro idx node
  refine ⟨rfl, ?_, rfl, rfl, rfl⟩
  intro h
  exact Topic.noConfusion h

/-- Claim C9: every resolved `CheckServiceNode` becomes exactly one
register event whose key is the service name when a service is present and
empty otherwise, whose topic is the connect-aware variant exactly when
`connect` is requested, and whose index is the transaction's index; in
buffered mode each event is appended to the sink as its own singleton
batch, never as part of a larger batch, and the returned slice is empty. -/
theorem claim_C9_upsert_event_shape :
    ∀ (idx : Nat) (nodes : List CheckServiceNode) (connect : Bool),
      List.Forall₂ (fun n e =>
          e.Topic = (if connect then Topic.ServiceHealthConnect else Topic.ServiceHealth) ∧
          e.Index = idx ∧
          e.Key = csnServiceName n ∧
          e.Payload = EventPayload.ServiceHealth
            { Op := CatalogOp.Register, CheckServiceNode := ToCheckServiceNode n })
        nodes (checkServiceNodesToServiceHealth idx nodes none connect).1 ∧
      (∀ b : EventBuffer,
        checkServiceNodesToServiceHealth idx nodes (some b) connect =
          ([], some (b ++ (checkServiceNodesToServiceHealth idx nodes none connect).1.map (fun e => [e])))) := by
  intro idx nodes connect
  induction nodes with
  | nil =>
    refine ⟨List.Forall₂.nil, ?_⟩
    intro b
    simp [checkServiceNodesToServiceHealth]
  | cons n rest ih =>
    constructor
    · refine List.Forall₂.cons ⟨rfl, rfl, ?_, rfl⟩ ih.1
      simp [csnServiceName]
    · intro b
      simp only [checkServiceNodesToServiceHealth]
      rw [ih.2]
      simp [bufferAppend, List.append_assoc]

/-- Last-write-wins digest of the reduction loop: the value the `nodes` map
ends up holding for key `k`, computed directly over the operation list. -/
def lastIntent (ops : TxnOps) (k : String) : Option Bool :=
  ops.foldl (fun acc op =>
    match opIntent op with
    | some kv => if kv.1 = k then some kv.2 else acc
    | none => acc) none

/-- One step of the reduction loop. -/
def reduceStep (m : List (String × Bool)) (op : TxnOp) : List (String × Bool) :=
  match opIntent op with
  | none => m
  | some kv => nodesMapSet m kv.1 kv.2

theorem reduceNodes_eq_foldl (ops : TxnOps) : reduceNodes ops = ops.foldl reduceStep [] := by
  unfold reduceNodes reduceStep
  rfl

theorem nodesLookup_mapSet (m : List (String × Bool)) (k k2 : String) (v : Bool) :
    nodesLookup (nodesMapSet m k v) k2 = if k2 = k then some v else nodesLookup m k2 := by
  induction m with
  | nil =>
    by_cases h : k2 = k
    · subst h
      simp [nodesMapSet, nodesLookup, List.find?]
    · have hd : (decide (k = k2)) = false := decide_eq_false (fun hh => h hh.symm)
      simp [nodesMapSet, nodesLookup, List.find?, hd, h]
  | cons p rest ih =>
    obtain ⟨k3, v3⟩ := p
    by_cases h3 : k3 = k
    · subst h3
      by_cases h : k2 = k3
      · subst h
        simp [nodesMapSet, nodesLookup, List.find?]
      · have hd : (decide (k3 = k2)) = false := decide_eq_false (fun hh => h hh.symm)
        simp [nodesMapSet, nodesLookup, List.find?, hd, h]
    · by_cases h : k2 = k3
      · subst h
        simp [nodesMapSet, if_neg h3, nodesLookup, List.find?, h3]
      · have hd : (decide (k3 = k2)) = false := decide_eq_false (fun hh => h hh.symm)
        simp only [nodesMapSet, if_neg h3]
        simp only [nodesLookup, List.find?] at ih ⊢
        simp [hd, ih]

theorem nodesLookup_foldl (ops : TxnOps) (k : String) :
    ∀ m : List (String × Bool),
      nodesLookup (ops.foldl reduceStep m) k =
        (ops.foldl (fun acc op =>
          match opIntent op with
          | some kv => if kv.1 = k then some kv.2 else acc
          | none => acc) (nodesLookup m k)) := by
  induction ops with
  | nil => intro m; rfl
  | cons op rest ih =>
    intro m
    simp only [List.foldl_cons]
    rw [ih (reduceStep m op)]
    congr 1
    unfold reduceStep
    cases hop : opIntent op with
    | none => rfl
    | some kv =>
      rw [nodesLookup_mapSet]
      by_cases h : kv.1 = k
      · simp [h]
      · have h2 : ¬ k = kv.1 := fun hh => h hh.symm
        simp [h, h2]

theorem nodesLookup_reduceNodes (ops : TxnOps) (k : String) :
    nodesLookup (reduceNodes ops) k = lastIntent ops k := by
  rw [reduceNodes_eq_foldl, nodesLookup_foldl, lastIntent]
  rfl

/-- Does an operation write the `nodes` map entry of node `k`?  This is the
claim's "non-`Get` mutation targeting `k`", read off the switch. -/
def opTouches (op : TxnOp) (k : String) : Bool :=
  match opIntent op with
  | some kv => decide (kv.1 = k)
  | none => false

/-- Is an operation a node mutation with a delete verb? -/
def isNodeDeleteOp (op : TxnOp) : Bool :=
  match op.Node with
  | some n => decide (n.Verb = NodeVerb.NodeDelete ∨ n.Verb = NodeVerb.NodeDeleteCAS)
  | none => false

theorem lastIntent_eq_getLast (ops : TxnOps) (k : String) :
    lastIntent ops k =
      ((ops.filter (fun o => opTouches o k)).getLast?).bind (fun op => (opIntent op).map Prod.snd) := by
  induction ops using List.reverseRecOn with
  | nil => rfl
  | append_singleton rest op ih =>
    have hfold : lastIntent (rest ++ [op]) k =
        (match opIntent op with
         | some kv => if kv.1 = k then some kv.2 else lastIntent rest k
         | none => lastIntent rest k) := by
      unfold lastIntent
      rw [List.foldl_append]
      rfl
    rw [hfold, List.filter_append]
    cases htouch : opTouches op k with
    | true =>
      obtain ⟨kv, hop, hk⟩ : ∃ kv, opIntent op = some kv ∧ kv.1 = k := by
        unfold opTouches at htouch
        cases hop : opIntent op with
        | none => rw [hop] at htouch; cases htouch
        | some kv =>
          rw [hop] at htouch
          exact ⟨kv, rfl, of_decide_eq_true htouch⟩
      have hfil : [op].filter (fun o => opTouches o k) = [op] := by
        simp [List.filter, htouch]
      rw [hfil, List.getLast?_concat]
      simp [hop, hk]
    | false =>
      have hfil : [op].filter (fun o => opTouches o k) = [] := by
        simp [List.filter, htouch]
      rw [hfil, List.append_nil, ← ih]
      cases hop : opIntent op with
      | none => rfl
      | some kv =>
        have hne : ¬ kv.1 = k := by
          unfold opTouches at htouch
          rw [hop] at htouch
          exact of_decide_eq_false htouch
        simp [hne]

theorem mem_of_getLast?_eq_some {α : Type} {l : List α} {a : α} (h : l.getLast? = some a) : a ∈ l := by
  obtain ⟨hne, heq⟩ := List.mem_getLast?_eq_getLast (Option.mem_def.mpr h)
  rw [heq]
  exact List.getLast_mem hne

theorem opIntent_removed_iff (op : TxnOp) (k : String) (h : opTouches op k = true) :
    ((opIntent op).map Prod.snd = some true) ↔ isNodeDeleteOp op = true := by
  obtain ⟨onode, osvc, ochk⟩ := op
  cases onode with
  | some n =>
    cases hv : n.Verb <;> simp_all [opIntent, isNodeDeleteOp, opTouches]
  | none =>
    cases osvc with
    | some s =>
      cases hv : s.Verb <;> simp_all [opIntent, isNodeDeleteOp, opTouches]
    | none =>
      cases ochk with
      | some c =>
        cases hv : c.Verb <;> simp_all [opIntent, isNodeDeleteOp, opTouches]
      | none => simp_all [opIntent, opTouches]

/-- First example operation of the spec's last-write-wins scenario:
`ServiceMutation(node A, Register)`. -/
def svcRegOpA : TxnOp :=
  { Node := none
    Service := some { Verb := ServiceVerb.ServiceSet, Node := "A", Service := { ID := "web1", Service := "web" } }
    Check := none }

/-- Second example operation: `NodeMutation(node A, Delete)`. -/
def nodeDelOpA : TxnOp :=
  { Node := some { Verb := NodeVerb.NodeDelete, Node := { Node := "A" } }
    Service := none
    Check := none }

/-- The register event the example resolver produces for node `A`. -/
def upsertEventA : Event :=
  { Topic := Topic.ServiceHealth
    Index := 5
    Key := "web"
    Payload := EventPayload.ServiceHealth
      { Op := CatalogOp.Register
        CheckServiceNode :=
          { Node := { Node := "A" }
            Service := some { ID := "web1", Service := "web" }
            Checks := [] } } }

/-- Example resolver: node `A` resolves to one register event, every other
node to no events. -/
def resolverA : Resolver := fun n => if n = "A" then ([upsertEventA], none) else ([], none)

/-- Claim C1: the reduction is last-write-wins per node.  The derived intent
for node `N` is `removed = true` exactly when the last non-`Get` operation
targeting `N` is a node mutation with a delete verb; consequently the batch
`[ServiceMutation(A, Register), NodeMutation(A, Delete)]` materializes into
exactly one tombstone for `A`, while the reversed batch materializes into
the resolver's register events for `A` and no tombstone. -/
theorem claim_C1_last_write_wins :
    (∀ (ops : TxnOps) (N : String),
      nodesLookup (reduceNodes ops) N = some true ↔
        ∃ op, (ops.filter (fun o => opTouches o N)).getLast? = some op ∧ isNodeDeleteOp op = true) ∧
    (∀ (r : Resolver) (idx : Nat) (out : List Event × Option Err),
      txnServiceHealthEvents r idx [svcRegOpA, nodeDelOpA] out →
        out = ([serviceHealthDeregisterEvent idx "A"], none)) ∧
    (∀ out : List Event × Option Err,
      txnServiceHealthEvents resolverA 5 [nodeDelOpA, svcRegOpA] out →
        out = ([upsertEventA], none)) := by
  refine ⟨?_, ?_, ?_⟩
  · intro ops N
    rw [nodesLookup_reduceNodes, lastIntent_eq_getLast]
    constructor
    · intro h
      cases hl : (ops.filter (fun o => opTouches o N)).getLast? with
      | none => rw [hl] at h; cases h
      | some op =>
        rw [hl] at h
        have hmem : op ∈ ops.filter (fun o => opTouches o N) := mem_of_getLast?_eq_some hl
        have htouch : opTouches op N = true := by
          have hb := List.of_mem_filter hmem
          simpa using hb
        exact ⟨op, rfl, (opIntent_removed_iff op N htouch).mp h⟩
    · rintro ⟨op, hl, hdel⟩
      rw [hl]
      have hmem : op ∈ ops.filter (fun o => opTouches o N) := mem_of_getLast?_eq_some hl
      have htouch : opTouches op N = true := by
        have hb := List.of_mem_filter hmem
        simpa using hb
      exact (opIntent_removed_iff op N htouch).mpr hdel
  · intro r idx out hrel
    obtain ⟨iter, hperm, hok, herr⟩ := hrel
    have hred : reduceNodes [svcRegOpA, nodeDelOpA] = [("A", true)] := rfl
    rw [hred] at hperm
    have hiter : iter = [("A", true)] := List.perm_singleton.mp hperm
    subst hiter
    have hcol : collectServiceHealthEvents r idx [("A", true)] =
        ([serviceHealthDeregisterEvent idx "A"], none) := rfl
    obtain ⟨sorted, ⟨hp, hpair⟩, hout⟩ := hok (by rw [hcol])
    rw [hcol] at hp
    have : sorted = [serviceHealthDeregisterEvent idx "A"] := List.perm_singleton.mp hp
    subst this
    exact hout
  · intro out hrel
    obtain ⟨iter, hperm, hok, herr⟩ := hrel
    have hred : reduceNodes [nodeDelOpA, svcRegOpA] = [("A", false)] := rfl
    rw [hred] at hperm
    have hiter : iter = [("A", false)] := List.perm_singleton.mp hperm
    subst hiter
    have hcol : collectServiceHealthEvents resolverA 5 [("A", false)] =
        ([upsertEventA], none) := rfl
    obtain ⟨sorted, ⟨hp, hpair⟩, hout⟩ := hok (by rw [hcol])
    rw [hcol] at hp
    have : sorted = [upsertEventA] := List.perm_singleton.mp hp
    subst this
    exact hout

/-- Witness for claim C1: both example conclusions are reached from
explicit, fully evaluated runs. -/
theorem claim_C1_last_write_wins_witness :
    ([serviceHealthDeregisterEvent 7 "A"], (none : Option Err)) =
      ([serviceHealthDeregisterEvent 7 "A"], none) ∧
    ([upsertEventA], (none : Option Err)) = ([upsertEventA], none) := by
  constructor
  · exact claim_C1_last_write_wins.2.1 (fun _ => ([], none)) 7 _
      ⟨[("A", true)], List.Perm.refl _,
        fun _ => ⟨[serviceHealthDeregisterEvent 7 "A"], ⟨List.Perm.refl _, by simp⟩, rfl⟩,
        fun e he => Option.noConfusion he⟩
  · exact claim_C1_last_write_wins.2.2 _
      ⟨[("A", false)], List.Perm.refl _,
        fun _ => ⟨[upsertEventA], ⟨List.Perm.refl _, by simp⟩, rfl⟩,
        fun e he => Option.noConfusion he⟩

/-- A transaction operation with none of the catalog payloads set: it falls
into the empty `default:` branch of the switch. -/
def emptyTxnOp : TxnOp := { Node := none, Service := none, Check := none }

/-- Counterexample to claim C7 as stated: a batch consisting of one
operation without a node, service or check target materializes
successfully (no error) with zero events — the record is silently ignored,
materialization does not fail. -/
theorem claim_C7_counterexample :
    reduceNodes [emptyTxnOp] = [] ∧
    txnServiceHealthEvents (fun _ => ([], none)) 3 [emptyTxnOp] ([], none) :=
  ⟨rfl,
    ⟨[], List.Perm.refl _,
      fun _ => ⟨[], ⟨List.Perm.refl _, List.Pairwise.nil⟩, rfl⟩,
      fun e he => Option.noConfusion he⟩⟩

/-- Claim C7, amended: an operation lacking an owning node identity is
silently skipped by the empty `default:` branch — it contributes no intent,
and materialization behaves exactly as if the record were absent (in
particular it succeeds rather than failing). -/
theorem claim_C7_missing_target_skipped :
    ∀ op : TxnOp, op.Node = none → op.Service = none → op.Check = none →
      opIntent op = none ∧
      (∀ pre post : TxnOps, reduceNodes (pre ++ op :: post) = reduceNodes (pre ++ post)) ∧
      (∀ (r : Resolver) (idx : Nat) (out : List Event × Option Err) (pre post : TxnOps),
        txnServiceHealthEvents r idx (pre ++ op :: post) out ↔
          txnServiceHealthEvents r idx (pre ++ post) out) := by
  intro op h1 h2 h3
  have hint : opIntent op = none := by
    simp [opIntent, h1, h2, h3]
  have hred : ∀ pre post : TxnOps, reduceNodes (pre ++ op :: post) = reduceNodes (pre ++ post) := by
    intro pre post
    rw [reduceNodes_eq_foldl, reduceNodes_eq_foldl, List.foldl_append, List.foldl_append,
      List.foldl_cons]
    have hstep : reduceStep (List.foldl reduceStep [] pre) op = List.foldl reduceStep [] pre := by
      unfold reduceStep
      rw [hint]
    rw [hstep]
  refine ⟨hint, hred, ?_⟩
  intro r idx out pre post
  unfold txnServiceHealthEvents
  rw [hred pre post]

/-- Witness for the amended claim C7, at the concrete no-target record. -/
theorem claim_C7_missing_target_skipped_witness :
    opIntent emptyTxnOp = none ∧
    reduceNodes ([] ++ emptyTxnOp :: []) = reduceNodes ([] ++ []) := by
  obtain ⟨h1, h2, h3⟩ := claim_C7_missing_target_skipped emptyTxnOp rfl rfl rfl
  exact ⟨h1, h2 [] []⟩

/-- Is the operation dispatched to a `Get` verb by the switch? -/
def isGetOp (op : TxnOp) : Bool :=
  match op.Node with
  | some n => decide (n.Verb = NodeVerb.NodeGet)
  | none =>
    match op.Service with
    | some s => decide (s.Verb = ServiceVerb.ServiceGet)
    | none =>
      match op.Check with
      | some c => decide (c.Verb = CheckVerb.CheckGet)
      | none => false

theorem isGetOp_intent (op : TxnOp) (h : isGetOp op = true) : opIntent op = none := by
  obtain ⟨onode, osvc, ochk⟩ := op
  cases onode with
  | some n => cases hv : n.Verb <;> simp_all [opIntent, isGetOp]
  | none =>
    cases osvc with
    | some s => cases hv : s.Verb <;> simp_all [opIntent, isGetOp]
    | none =>
      cases ochk with
      | some c => cases hv : c.Verb <;> simp_all [opIntent, isGetOp]
      | none => simp_all [isGetOp]

theorem reduceNodes_nil_of_all_get (ops : TxnOps) (h : ∀ op ∈ ops, isGetOp op = true) :
    reduceNodes ops = [] := by
  rw [reduceNodes_eq_foldl]
  induction ops with
  | nil => rfl
  | cons op rest ih =>
    rw [List.foldl_cons]
    have hstep : reduceStep [] op = [] := by
      unfold reduceStep
      rw [isGetOp_intent op (h op (List.mem_cons_self op rest))]
    rw [hstep]
    exact ih (fun o ho => h o (List.mem_cons_of_mem op ho))

/-- Claim C8: a batch whose operations all carry the `Get` verb of their
variant — including, vacuously, the empty batch — contributes no intent for
any node, so materialization yields zero events and no error. -/
theorem claim_C8_read_only_noop :
    ∀ (r : Resolver) (idx : Nat) (ops : TxnOps) (out : List Event × Option Err),
      (∀ op ∈ ops, isGetOp op = true) →
      txnServiceHealthEvents r idx ops out → out = ([], none) := by
  intro r idx ops out hget hrel
  obtain ⟨iter, hperm, hok, herr⟩ := hrel
  rw [reduceNodes_nil_of_all_get ops hget] at hperm
  have hiter : iter = [] := List.Perm.eq_nil hperm
  subst hiter
  obtain ⟨sorted, ⟨hp, hpair⟩, hout⟩ := hok rfl
  have : sorted = [] := List.Perm.eq_nil hp
  subst this
  exact hout

/-- A `NodeGet` operation on node `B`. -/
def getOpB : TxnOp :=
  { Node := some { Verb := NodeVerb.NodeGet, Node := { Node := "B" } }
    Service := none
    Check := none }

/-- Witness for claim C8 at the concrete one-`Get` batch. -/
theorem claim_C8_read_only_noop_witness :
    (([], none) : List Event × Option Err) = ([], none) :=
  claim_C8_read_only_noop (fun _ => ([], none)) 2 [getOpB] ([], none)
    (by
      intro op hop
      rw [List.mem_singleton] at hop
      subst hop
      rfl)
    ⟨[], List.Perm.refl _,
      fun _ => ⟨[], ⟨List.Perm.refl _, List.Pairwise.nil⟩, rfl⟩,
      fun e he => Option.noConfusion he⟩

theorem nodesLookup_mem {m : List (String × Bool)} {k : String} {b : Bool}
    (h : nodesLookup m k = some b) : (k, b) ∈ m := by
  unfold nodesLookup at h
  cases hf : m.find? (fun p => decide (p.1 = k)) with
  | none => rw [hf] at h; cases h
  | some p =>
    rw [hf] at h
    have hmem := List.mem_of_find?_eq_some hf
    have hpred := List.find?_some hf
    have hk : p.1 = k := of_decide_eq_true (by simpa using hpred)
    have hb : p.2 = b := by simpa using h
    have hp : p = (k, b) := by
      obtain ⟨p1, p2⟩ := p
      simp only at hk hb
      rw [hk, hb]
    rw [← hp]
    exact hmem

theorem nodesLookup_of_mem_nodup {m : List (String × Bool)} {k : String} {b : Bool}
    (hmem : (k, b) ∈ m) (hnd : (m.map Prod.fst).Nodup) : nodesLookup m k = some b := by
  induction m with
  | nil => cases hmem
  | cons p rest ih =>
    obtain ⟨k2, v2⟩ := p
    rw [List.mem_cons] at hmem
    rw [List.map_cons, List.nodup_cons] at hnd
    cases hmem with
    | inl heq =>
      obtain ⟨hk, hv⟩ := Prod.mk.injEq .. ▸ heq
      subst hk
      subst hv
      simp [nodesLookup, List.find?]
    | inr hmem =>
      have hk2 : k2 ≠ k := by
        intro hkk
        subst hkk
        exact hnd.1 (List.mem_map.mpr ⟨(k2, b), hmem, rfl⟩)
      have hd : (decide (k2 = k)) = false := decide_eq_false hk2
      simp only [nodesLookup, List.find?, hd]
      exact ih hmem hnd.2

theorem keys_mapSet (m : List (String × Bool)) (k : String) (v : Bool) :
    (nodesMapSet m k v).map Prod.fst =
      if k ∈ m.map Prod.fst then m.map Prod.fst else m.map Prod.fst ++ [k] := by
  induction m with
  | nil => simp [nodesMapSet]
  | cons p rest ih =>
    obtain ⟨k2, v2⟩ := p
    by_cases h : k2 = k
    · subst h
      simp [nodesMapSet]
    · have hne : ¬ k = k2 := fun hh => h hh.symm
      simp only [nodesMapSet, if_neg h, List.map_cons, ih, List.mem_cons]
      by_cases hm : k ∈ rest.map Prod.fst
      · simp [hm, hne]
      · simp [hm, hne]

theorem nodup_keys_mapSet (m : List (String × Bool)) (k : String) (v : Bool)
    (h : (m.map Prod.fst).Nodup) : ((nodesMapSet m k v).map Prod.fst).Nodup := by
  rw [keys_mapSet]
  by_cases hm : k ∈ m.map Prod.fst
  · simpa [hm] using h
  · simp only [hm, if_false]
    rw [List.nodup_append]
    exact ⟨h, List.nodup_singleton k, by simpa using fun hk => hm hk⟩

theorem reduceNodes_nodup_keys (ops : TxnOps) : ((reduceNodes ops).map Prod.fst).Nodup := by
  rw [reduceNodes_eq_foldl]
  have haux : ∀ (l : TxnOps) (m : List (String × Bool)), (m.map Prod.fst).Nodup →
      ((l.foldl reduceStep m).map Prod.fst).Nodup := by
    intro l
    induction l with
    | nil => intro m hm; exact hm
    | cons op rest ih =>
      intro m hm
      rw [List.foldl_cons]
      apply ih
      unfold reduceStep
      cases opIntent op with
      | none => exact hm
      | some kv => exact nodup_keys_mapSet m kv.1 kv.2 hm
  exact haux ops [] List.nodup_nil

theorem collect_ok_members (r : Resolver) (idx : Nat) :
    ∀ iter : List (String × Bool), (collectServiceHealthEvents r idx iter).2 = none →
      ∀ p ∈ iter, p.2 = false → (r p.1).2 = none := by
  intro iter
  induction iter with
  | nil => intro _ p hp; cases hp
  | cons q rest ih =>
    obtain ⟨node, dereg⟩ := q
    intro hok p hp hpf
    rw [List.mem_cons] at hp
    cases dereg with
    | true =>
      have hrest : (collectServiceHealthEvents r idx rest).2 = none := by
        simp only [collectServiceHealthEvents] at hok
        cases hrec : collectServiceHealthEvents r idx rest with
        | mk evs err =>
          cases err with
          | none => rfl
          | some e => rw [hrec] at hok; simp at hok
      cases hp with
      | inl heq => subst heq; cases hpf
      | inr hmem => exact ih hrest p hmem hpf
    | false =>
      have hnode : (r node).2 = none := by
        simp only [collectServiceHealthEvents] at hok
        cases hr : r node with
        | mk evt err =>
          cases err with
          | none => rfl
          | some e => rw [hr] at hok; simp at hok
      have hrest : (collectServiceHealthEvents r idx rest).2 = none := by
        simp only [collectServiceHealthEvents] at hok
        cases hr : r node with
        | mk evt err =>
          cases err with
          | some e => rw [hr] at hnode; cases hnode
          | none =>
            rw [hr] at hok
            cases hrec : collectServiceHealthEvents r idx rest with
            | mk evs err2 =>
              cases err2 with
              | none => rfl
              | some e => rw [hrec] at hok; simp at hok
      cases hp with
      | inl heq =>
        have : p.1 = node := by rw [heq]
        rw [this]
        exact hnode
      | inr hmem => exact ih hrest p hmem hpf

theorem collect_err_source (r : Resolver) (idx : Nat) :
    ∀ (iter : List (String × Bool)) (e : Err),
      (collectServiceHealthEvents r idx iter).2 = some e →
      ∃ n, (n, false) ∈ iter ∧ (r n).2 = some e := by
  intro iter
  induction iter with
  | nil => intro e he; cases he
  | cons q rest ih =>
    obtain ⟨node, dereg⟩ := q
    intro e he
    cases dereg with
    | true =>
      simp only [collectServiceHealthEvents] at he
      cases hrec : collectServiceHealthEvents r idx rest with
      | mk evs err =>
        cases err with
        | none => rw [hrec] at he; simp at he
        | some e2 =>
          rw [hrec] at he
          have he2 : e2 = e := by simpa using he
          obtain ⟨n, hmem, hr⟩ := ih e2 (by rw [hrec])
          exact ⟨n, List.mem_cons_of_mem _ hmem, he2 ▸ hr⟩
    | false =>
      simp only [collectServiceHealthEvents] at he
      cases hr : r node with
      | mk evt err =>
        cases err with
        | some e2 =>
          rw [hr] at he
          have he2 : e2 = e := by simpa using he
          exact ⟨node, List.mem_cons_self _ _, by rw [hr, he2]⟩
        | none =>
          rw [hr] at he
          cases hrec : collectServiceHealthEvents r idx rest with
          | mk evs err2 =>
            cases err2 with
            | none => rw [hrec] at he; simp at he
            | some e2 =>
              rw [hrec] at he
              have he2 : e2 = e := by simpa using he
              obtain ⟨n, hmem, hr2⟩ := ih e2 (by rw [hrec])
              exact ⟨n, List.mem_cons_of_mem _ hmem, he2 ▸ hr2⟩

/-- Claim C3: materialization is atomic in the resolver.  Whenever the
resolver fails for any touched node that the loop resolves (that is, any
node whose reduced intent is not a removal — removed nodes never reach the
resolver), the function returns one such resolver error verbatim paired
with a nil event slice, so no partial event set is ever produced. -/
theorem claim_C3_error_atomicity :
    ∀ (r : Resolver) (idx : Nat) (ops : TxnOps) (out : List Event × Option Err),
      txnServiceHealthEvents r idx ops out →
      (∃ n, nodesLookup (reduceNodes ops) n = some false ∧ (r n).2 ≠ none) →
      ∃ e n, nodesLookup (reduceNodes ops) n = some false ∧ (r n).2 = some e ∧
        out = ([], some e) := by
  intro r idx ops out hrel hfail
  obtain ⟨iter, hperm, hok, herr⟩ := hrel
  obtain ⟨n, hlook, hne⟩ := hfail
  have hmem : (n, false) ∈ iter := (hperm.mem_iff).mpr (nodesLookup_mem hlook)
  cases hcol : (collectServiceHealthEvents r idx iter).2 with
  | none =>
    exact absurd (collect_ok_members r idx iter hcol (n, false) hmem rfl) hne
  | some e =>
    obtain ⟨n2, hmem2, hr2⟩ := collect_err_source r idx iter e hcol
    have hmem2r : (n2, false) ∈ reduceNodes ops := (hperm.mem_iff).mp hmem2
    have hlook2 : nodesLookup (reduceNodes ops) n2 = some false :=
      nodesLookup_of_mem_nodup hmem2r (reduceNodes_nodup_keys ops)
    exact ⟨e, n2, hlook2, hr2, herr e hcol⟩

/-- Failing example resolver: node `A` resolves to an error. -/
def failingResolverA : Resolver := fun n =>
  if n = "A" then ([], some "resolver boom") else ([], none)

/-- Witness for claim C3: the concrete one-node batch with a failing
resolver aborts with that error and a nil event slice. -/
theorem claim_C3_error_atomicity_witness :
    ∃ e n, nodesLookup (reduceNodes [svcRegOpA]) n = some false ∧
      (failingResolverA n).2 = some e ∧
      (([], some "resolver boom") : List Event × Option Err) = ([], some e) :=
  claim_C3_error_atomicity failingResolverA 9 [svcRegOpA] ([], some "resolver boom")
    ⟨[("A", false)], List.Perm.refl _,
      fun h => Option.noConfusion h,
      fun e he => by
        have h2 : (some "resolver boom" : Option Err) = some e := he
        have h3 : "resolver boom" = e := Option.some.inj h2
        rw [← h3]⟩
    ⟨"A", rfl, fun h => Option.noConfusion h⟩

theorem collect_congr (r r2 : Resolver) (idx : Nat) :
    ∀ iter : List (String × Bool), (∀ p ∈ iter, p.2 = false → r p.1 = r2 p.1) →
      collectServiceHealthEvents r idx iter = collectServiceHealthEvents r2 idx iter := by
  intro iter
  induction iter with
  | nil => intro _; rfl
  | cons q rest ih =>
    obtain ⟨node, dereg⟩ := q
    intro h
    have hrest := ih (fun p hp hf => h p (List.mem_cons_of_mem _ hp) hf)
    cases dereg with
    | true =>
      simp only [collectServiceHealthEvents, hrest]
      simp
    | false =>
      have hnode : r node = r2 node := h (node, false) (List.mem_cons_self _ _) rfl
      simp only [collectServiceHealthEvents, hrest, hnode]

theorem collect_filter_not_mem (r : Resolver) (idx : Nat) (n : String)
    (hres : ∀ m : String, ∀ e ∈ (r m).1, eventNodeName e = m) :
    ∀ iter : List (String × Bool), (collectServiceHealthEvents r idx iter).2 = none →
      n ∉ iter.map Prod.fst →
      (collectServiceHealthEvents r idx iter).1.filter (fun e => decide (eventNodeName e = n)) = [] := by
  intro iter
  induction iter with
  | nil => intro _ _; rfl
  | cons q rest ih =>
    obtain ⟨node, dereg⟩ := q
    intro hok hnm
    rw [List.map_cons, List.mem_cons] at hnm
    push_neg at hnm
    obtain ⟨hn_ne, hn_rest⟩ := hnm
    cases dereg with
    | true =>
      cases hrec : collectServiceHealthEvents r idx rest with
      | mk evs err =>
        cases err with
        | some e =>
          exfalso
          simp only [collectServiceHealthEvents, hrec] at hok
          simp at hok
        | none =>
          have hefilter := ih (by rw [hrec]) hn_rest
          rw [hrec] at hefilter
          have hname : (decide (eventNodeName (serviceHealthDeregisterEvent idx node) = n)) = false := by
            have hev : eventNodeName (serviceHealthDeregisterEvent idx node) = node := rfl
            rw [hev]
            exact decide_eq_false (fun hh => hn_ne hh.symm)
          simp [collectServiceHealthEvents, hrec, List.filter_cons, hname, hefilter]
    | false =>
      cases hr : r node with
      | mk evt err =>
        cases err with
        | some e =>
          exfalso
          simp only [collectServiceHealthEvents, hr] at hok
          simp at hok
        | none =>
          cases hrec : collectServiceHealthEvents r idx rest with
          | mk evs err2 =>
            cases err2 with
            | some e =>
              exfalso
              simp only [collectServiceHealthEvents, hr, hrec] at hok
              simp at hok
            | none =>
              have hfrest := ih (by rw [hrec]) hn_rest
              rw [hrec] at hfrest
              have hfevt : evt.filter (fun e => decide (eventNodeName e = n)) = [] := by
                rw [List.filter_eq_nil_iff]
                intro e he
                have hn2 : eventNodeName e = node := hres node e (by rw [hr]; exact he)
                simp only [hn2]
                intro hd
                exact hn_ne (of_decide_eq_true hd).symm
              simp [collectServiceHealthEvents, hr, hrec, List.filter_append, hfevt, hfrest]

theorem collect_filter_tombstone (r : Resolver) (idx : Nat) (n : String)
    (hres : ∀ m : String, ∀ e ∈ (r m).1, eventNodeName e = m) :
    ∀ iter : List (String × Bool), (collectServiceHealthEvents r idx iter).2 = none →
      (iter.map Prod.fst).Nodup → (n, true) ∈ iter →
      (collectServiceHealthEvents r idx iter).1.filter (fun e => decide (eventNodeName e = n)) =
        [serviceHealthDeregisterEvent idx n] := by
  intro iter
  induction iter with
  | nil => intro _ _ hmem; cases hmem
  | cons q rest ih =>
    obtain ⟨node, dereg⟩ := q
    intro hok hnd hmem
    rw [List.map_cons, List.nodup_cons] at hnd
    rw [List.mem_cons] at hmem
    cases hmem with
    | inl heq =>
      injection heq with hkeq hveq
      subst hkeq
      subst hveq
      cases hrec : collectServiceHealthEvents r idx rest with
      | mk evs err =>
        cases err with
        | some e =>
          exfalso
          simp only [collectServiceHealthEvents, hrec] at hok
          simp at hok
        | none =>
          have hrest0 : evs.filter (fun e => decide (eventNodeName e = n)) = [] := by
            have := collect_filter_not_mem r idx n hres rest (by rw [hrec]) hnd.1
            rw [hrec] at this
            exact this
          have hname : (decide (eventNodeName (serviceHealthDeregisterEvent idx n) = n)) = true := by
            have hev : eventNodeName (serviceHealthDeregisterEvent idx n) = n := rfl
            rw [hev]
            exact decide_eq_true rfl
          simp [collectServiceHealthEvents, hrec, List.filter_cons, hname, hrest0]
    | inr hmem2 =>
      have hne : node ≠ n := by
        intro hh
        subst hh
        exact hnd.1 (List.mem_map.mpr ⟨(node, true), hmem2, rfl⟩)
      cases dereg with
      | true =>
        cases hrec : collectServiceHealthEvents r idx rest with
        | mk evs err =>
          cases err with
          | some e =>
            exfalso
            simp only [collectServiceHealthEvents, hrec] at hok
            simp at hok
          | none =>
            have hrest := ih (by rw [hrec]) hnd.2 hmem2
            rw [hrec] at hrest
            have hname : (decide (eventNodeName (serviceHealthDeregisterEvent idx node) = n)) = false := by
              have hev : eventNodeName (serviceHealthDeregisterEvent idx node) = node := rfl
              rw [hev]
              exact decide_eq_false hne
            simp [collectServiceHealthEvents, hrec, List.filter_cons, hname, hrest]
      | false =>
        cases hr : r node with
        | mk evt err =>
          cases err with
          | some e =>
            exfalso
            simp only [collectServiceHealthEvents, hr] at hok
            simp at hok
          | none =>
            cases hrec : collectServiceHealthEvents r idx rest with
            | mk evs err2 =>
              cases err2 with
              | some e =>
                exfalso
                simp only [collectServiceHealthEvents, hr, hrec] at hok
                simp at hok
              | none =>
                have hrest := ih (by rw [hrec]) hnd.2 hmem2
                rw [hrec] at hrest
                have hfevt : evt.filter (fun e => decide (eventNodeName e = n)) = [] := by
                  rw [List.filter_eq_nil_iff]
                  intro e he
                  have hn2 : eventNodeName e = node := hres node e (by rw [hr]; exact he)
                  simp only [hn2]
                  intro hd
                  exact hne (of_decide_eq_true hd)
                simp [collectServiceHealthEvents, hr, hrec, List.filter_append, hfevt, hrest]

/-- Claim C5: tombstone independence.  First, the materialization relation
is unchanged when the resolver is replaced by any resolver that agrees on
the nodes whose reduced intent is not a removal — the resolver's values at
removed nodes are never consulted, even if the node is still present in the
snapshot.  Second, for a node with removal intent the successful output
contains exactly one event mentioning that node, namely the deregister
event built from the node identity alone. -/
theorem claim_C5_tombstone_independence :
    (∀ (r r2 : Resolver) (idx : Nat) (ops : TxnOps) (out : List Event × Option Err),
      (∀ n, nodesLookup (reduceNodes ops) n = some false → r n = r2 n) →
      (txnServiceHealthEvents r idx ops out ↔ txnServiceHealthEvents r2 idx ops out)) ∧
    (∀ (r : Resolver) (idx : Nat) (ops : TxnOps) (evs : List Event) (n : String),
      (∀ m : String, ∀ e ∈ (r m).1, eventNodeName e = m) →
      txnServiceHealthEvents r idx ops (evs, none) →
      (n, true) ∈ reduceNodes ops →
      evs.filter (fun e => decide (eventNodeName e = n)) = [serviceHealthDeregisterEvent idx n]) := by
  constructor
  · intro r r2 idx ops out hagree
    have hcongr : ∀ iter : List (String × Bool), iter.Perm (reduceNodes ops) →
        collectServiceHealthEvents r idx iter = collectServiceHealthEvents r2 idx iter := by
      intro iter hperm
      apply collect_congr
      intro p hp hpf
      have hmem : p ∈ reduceNodes ops := (hperm.mem_iff).mp hp
      have hlook : nodesLookup (reduceNodes ops) p.1 = some false := by
        have : (p.1, false) ∈ reduceNodes ops := by
          have hp2 : p = (p.1, false) := by
            obtain ⟨p1, p2⟩ := p
            simp only at hpf
            rw [hpf]
          rw [← hp2]
          exact hmem
        exact nodesLookup_of_mem_nodup this (reduceNodes_nodup_keys ops)
      exact hagree p.1 hlook
    constructor
    · rintro ⟨iter, hperm, hok, herr⟩
      exact ⟨iter, hperm, by rw [← hcongr iter hperm]; exact hok,
        by rw [← hcongr iter hperm]; exact herr⟩
    · rintro ⟨iter, hperm, hok, herr⟩
      exact ⟨iter, hperm, by rw [hcongr iter hperm]; exact hok,
        by rw [hcongr iter hperm]; exact herr⟩
  · intro r idx ops evs n hres hrel hmem
    obtain ⟨iter, hperm, hok, herr⟩ := hrel
    cases hcol : (collectServiceHealthEvents r idx iter).2 with
    | some e =>
      have := herr e hcol
      injection this with h1 h2
      cases h2
    | none =>
      obtain ⟨sorted, ⟨hp, hpair⟩, hout⟩ := hok hcol
      injection hout with h1 h2
      subst h1
      have hmem_iter : (n, true) ∈ iter := (hperm.mem_iff).mpr hmem
      have hnd_iter : (iter.map Prod.fst).Nodup :=
        ((hperm.map Prod.fst).symm).nodup (reduceNodes_nodup_keys ops)
      have hfil := collect_filter_tombstone r idx n hres iter hcol hnd_iter hmem_iter
      have hfp : (evs.filter (fun e => decide (eventNodeName e = n))).Perm
          ((collectServiceHealthEvents r idx iter).1.filter (fun e => decide (eventNodeName e = n))) :=
        hp.filter _
      rw [hfil] at hfp
      exact List.perm_singleton.mp hfp

/-- Witness for claim C5: both parts applied at a concrete one-node batch
whose only intent is the removal of node `A`. -/
theorem claim_C5_tombstone_independence_witness :
    (txnServiceHealthEvents (fun _ => ([], none)) 4 [svcRegOpA, nodeDelOpA]
        ([serviceHealthDeregisterEvent 4 "A"], none) ↔
      txnServiceHealthEvents (fun _ => ([], none)) 4 [svcRegOpA, nodeDelOpA]
        ([serviceHealthDeregisterEvent 4 "A"], none)) ∧
    [serviceHealthDeregisterEvent 4 "A"].filter (fun e => decide (eventNodeName e = "A")) =
      [serviceHealthDeregisterEvent 4 "A"] := by
  constructor
  · exact claim_C5_tombstone_independence.1 (fun _ => ([], none)) (fun _ => ([], none))
      4 [svcRegOpA, nodeDelOpA] ([serviceHealthDeregisterEvent 4 "A"], none)
      (fun n _ => rfl)
  · exact claim_C5_tombstone_independence.2 (fun _ => ([], none)) 4 [svcRegOpA, nodeDelOpA]
      [serviceHealthDeregisterEvent 4 "A"] "A"
      (fun m e he => absurd he (List.not_mem_nil e))
      ⟨[("A", true)], List.Perm.refl _,
        fun _ => ⟨[serviceHealthDeregisterEvent 4 "A"], ⟨List.Perm.refl _, by simp⟩, rfl⟩,
        fun e he => Option.noConfusion he⟩
      (by
        have hred : reduceNodes [svcRegOpA, nodeDelOpA] = [("A", true)] := rfl
        rw [hred]
        exact List.mem_singleton.mpr rfl)

theorem collectLog_fst (r : Resolver) (idx : Nat) :
    ∀ iter : List (String × Bool),
      (collectServiceHealthEventsLog r idx iter).1 = collectServiceHealthEvents r idx iter := by
  intro iter
  induction iter with
  | nil => rfl
  | cons q rest ih =>
    obtain ⟨node, dereg⟩ := q
    cases dereg with
    | true =>
      cases hrec : collectServiceHealthEventsLog r idx rest with
      | mk res log =>
        have hres2 : collectServiceHealthEvents r idx rest = res := by rw [← ih, hrec]
        obtain ⟨evs, err⟩ := res
        cases err with
        | none => simp [collectServiceHealthEventsLog, collectServiceHealthEvents, hrec, hres2]
        | some e => simp [collectServiceHealthEventsLog, collectServiceHealthEvents, hrec, hres2]
    | false =>
      cases hr : r node with
      | mk evt err =>
        cases err with
        | some e => simp [collectServiceHealthEventsLog, collectServiceHealthEvents, hr]
        | none =>
          cases hrec : collectServiceHealthEventsLog r idx rest with
          | mk res log =>
            have hres2 : collectServiceHealthEvents r idx rest = res := by rw [← ih, hrec]
            obtain ⟨evs, err2⟩ := res
            cases err2 with
            | none => simp [collectServiceHealthEventsLog, collectServiceHealthEvents, hr, hrec, hres2]
            | some e => simp [collectServiceHealthEventsLog, collectServiceHealthEvents, hr, hrec, hres2]

theorem collectLog_sublist (r : Resolver) (idx : Nat) :
    ∀ iter : List (String × Bool),
      ((collectServiceHealthEventsLog r idx iter).2).Sublist (iter.map Prod.fst) := by
  intro iter
  induction iter with
  | nil => exact List.Sublist.refl []
  | cons q rest ih =>
    obtain ⟨node, dereg⟩ := q
    rw [List.map_cons]
    cases dereg with
    | true =>
      cases hrec : collectServiceHealthEventsLog r idx rest with
      | mk res log =>
        have hlog : (collectServiceHealthEventsLog r idx ((node, true) :: rest)).2 = log := by
          obtain ⟨evs, err⟩ := res
          cases err with
          | none => simp [collectServiceHealthEventsLog, hrec]
          | some e => simp [collectServiceHealthEventsLog, hrec]
        rw [hlog]
        have : log.Sublist (rest.map Prod.fst) := by
          have := ih
          rw [hrec] at this
          exact this
        exact this.cons node
    | false =>
      cases hr : r node with
      | mk evt err =>
        cases err with
        | some e =>
          have hlog : (collectServiceHealthEventsLog r idx ((node, false) :: rest)).2 = [node] := by
            simp [collectServiceHealthEventsLog, hr]
          rw [hlog]
          exact (List.nil_sublist _).cons₂ node
        | none =>
          cases hrec : collectServiceHealthEventsLog r idx rest with
          | mk res log =>
            have hlog : (collectServiceHealthEventsLog r idx ((node, false) :: rest)).2 = node :: log := by
              obtain ⟨evs, err2⟩ := res
              cases err2 with
              | none => simp [collectServiceHealthEventsLog, hr, hrec]
              | some e => simp [collectServiceHealthEventsLog, hr, hrec]
            rw [hlog]
            have hsub : log.Sublist (rest.map Prod.fst) := by
              have := ih
              rw [hrec] at this
              exact this
            exact hsub.cons₂ node

/-- First of the three example register mutations, all touching node `B`. -/
def svcRegB1 : TxnOp :=
  { Node := none
    Service := some { Verb := ServiceVerb.ServiceSet, Node := "B", Service := { ID := "w1", Service := "web" } }
    Check := none }

/-- Second example mutation on `B`, with a conditional register verb. -/
def svcRegB2 : TxnOp :=
  { Node := none
    Service := some { Verb := ServiceVerb.ServiceCAS, Node := "B", Service := { ID := "w2", Service := "web" } }
    Check := none }

/-- Third example mutation on `B`: a check register. -/
def chkRegB : TxnOp :=
  { Node := none
    Service := none
    Check := some { Verb := CheckVerb.CheckSet, Check := { Node := "B", CheckID := "c1", Status := "passing" } } }

/-- First resolved event for node `B`. -/
def upsertB1 : Event :=
  { Topic := Topic.ServiceHealth
    Index := 6
    Key := "web"
    Payload := EventPayload.ServiceHealth
      { Op := CatalogOp.Register
        CheckServiceNode :=
          { Node := { Node := "B" }, Service := some { ID := "w1", Service := "web" }, Checks := [] } } }

/-- Second resolved event for node `B`. -/
def upsertB2 : Event :=
  { Topic := Topic.ServiceHealth
    Index := 6
    Key := "web"
    Payload := EventPayload.ServiceHealth
      { Op := CatalogOp.Register
        CheckServiceNode :=
          { Node := { Node := "B" }, Service := some { ID := "w2", Service := "web" }, Checks := [] } } }

/-- Example resolver for node `B`: one coherent set of two register events. -/
def resolverB : Resolver := fun n => if n = "B" then ([upsertB1, upsertB2], none) else ([], none)

/-- Claim C6: deduplication.  The resolver is invoked at most once per
distinct node identity for any batch and any map iteration order (observed
through the instrumented call log, whose event output coincides with the
uninstrumented loop by `collectLog_fst`); in particular the batch of three
register mutations all touching node `B` reduces to the single entry
`("B", false)`, produces exactly one resolver call, and materializes the
resolver's one coherent set of register events. -/
theorem claim_C6_resolver_dedup :
    (∀ (r : Resolver) (idx : Nat) (ops : TxnOps) (iter : List (String × Bool)),
      iter.Perm (reduceNodes ops) →
      ∀ n : String, ((collectServiceHealthEventsLog r idx iter).2).count n ≤ 1) ∧
    (reduceNodes [svcRegB1, svcRegB2, chkRegB] = [("B", false)] ∧
      (collectServiceHealthEventsLog resolverB 6 [("B", false)]).2 = ["B"] ∧
      txnServiceHealthEventsRun resolverB 6 [("B", false)] = ([upsertB1, upsertB2], none)) := by
  constructor
  · intro r idx ops iter hperm n
    have hnd : (iter.map Prod.fst).Nodup :=
      ((hperm.map Prod.fst).symm).nodup (reduceNodes_nodup_keys ops)
    have hsub := collectLog_sublist r idx iter
    exact le_trans (hsub.count_le n) (List.nodup_iff_count_le_one.mp hnd n)
  · exact ⟨rfl, rfl, rfl⟩

/-- Witness for claim C6 at the concrete three-mutation batch on `B`. -/
theorem claim_C6_resolver_dedup_witness :
    ((collectServiceHealthEventsLog resolverB 6 [("B", false)]).2).count "B" ≤ 1 :=
  claim_C6_resolver_dedup.1 resolverB 6 [svcRegB1, svcRegB2, chkRegB] [("B", false)]
    (List.Perm.refl _) "B"

theorem strLtB_iff (a b : String) : strLtB a b = true ↔ a < b := by
  rw [strLtB, decide_eq_true_iff, String.lt_iff_toList_lt]
  exact Iff.rfl

/-- The sort key the comparator implements: the pair of node name and
service routing key, read off the event payload. -/
def eventKey (e : Event) : String × String :=
  ((eventServiceHealthCSN e).Node.Node, csnServiceName (eventServiceHealthCSN e))

/-- Strict ascending lexicographic order on sort keys: node name first,
then service key (the empty key of a bare node sorts before any non-empty
key on the same node, since the empty string is the minimum). -/
def keyLt (a b : String × String) : Prop :=
  a.1 < b.1 ∨ (a.1 = b.1 ∧ a.2 < b.2)

theorem keyLt_trichotomy (a b : String × String) : keyLt a b ∨ a = b ∨ keyLt b a := by
  obtain ⟨a1, a2⟩ := a
  obtain ⟨b1, b2⟩ := b
  rcases lt_trichotomy a1 b1 with h1 | h1 | h1
  · exact Or.inl (Or.inl h1)
  · rcases lt_trichotomy a2 b2 with h2 | h2 | h2
    · exact Or.inl (Or.inr ⟨h1, h2⟩)
    · subst h1
      subst h2
      exact Or.inr (Or.inl rfl)
    · exact Or.inr (Or.inr (Or.inr ⟨h1.symm, h2⟩))
  · exact Or.inr (Or.inr (Or.inl h1))

theorem keyLt_asymm (a b : String × String) (h : keyLt a b) : ¬ keyLt b a := by
  obtain ⟨a1, a2⟩ := a
  obtain ⟨b1, b2⟩ := b
  rintro (h2 | ⟨h2e, h2⟩) <;> rcases h with h1 | ⟨h1e, h1⟩
  · exact absurd h2 (asymm h1)
  · exact absurd h2 (by rw [h1e]; exact lt_irrefl _)
  · exact absurd h1 (by rw [h2e]; exact lt_irrefl _)
  · exact absurd h2 (asymm h1)

theorem eventLess_iff_keyLt (x y : Event) :
    eventLess x y = true ↔ keyLt (eventKey x) (eventKey y) := by
  unfold eventLess eventKey keyLt
  by_cases h : (eventServiceHealthCSN x).Node.Node = (eventServiceHealthCSN y).Node.Node
  · rw [if_neg (fun hc => hc h), strLtB_iff]
    constructor
    · intro h2
      exact Or.inr ⟨h, h2⟩
    · rintro (h2 | ⟨h3, h2⟩)
      · exact absurd h2 (by rw [h]; exact lt_irrefl _)
      · exact h2
  · rw [if_pos h, strLtB_iff]
    constructor
    · exact fun h2 => Or.inl h2
    · rintro (h2 | ⟨h3, h2⟩)
      · exact h2
      · exact absurd h3 h

theorem eventLess_false_of_not_keyLt (x y : Event)
    (h : ¬ keyLt (eventKey x) (eventKey y)) : eventLess x y = false := by
  cases he : eventLess x y with
  | false => rfl
  | true => exact absurd ((eventLess_iff_keyLt x y).mp he) h

/-- Any output admitted by the `sort.Slice` contract is sorted ascending in
the lexicographic key order: adjacent-or-later events never carry a
strictly smaller key. -/
theorem contract_pairwise_keyLe (input output : List Event)
    (h : SortSliceContract eventLess input output) :
    output.Pairwise (fun x y => keyLt (eventKey x) (eventKey y) ∨ eventKey x = eventKey y) := by
  refine h.2.imp ?_
  intro a b hab
  rcases keyLt_trichotomy (eventKey a) (eventKey b) with h1 | h1 | h1
  · exact Or.inl h1
  · exact Or.inr h1
  · exfalso
    have : eventLess b a = true := (eventLess_iff_keyLt b a).mpr h1
    rw [hab] at this
    cases this

/-- Register event for a bare node (no service, empty routing key), used as
test data for the orderer. -/
def mkBareEvent (nm : String) : Event :=
  { Topic := Topic.ServiceHealth
    Index := 8
    Key := ""
    Payload := EventPayload.ServiceHealth
      { Op := CatalogOp.Register
        CheckServiceNode := { Node := { Node := nm }, Service := none, Checks := [] } } }

/-- Register event for one service instance on a node, used as test data
for the orderer; `id` distinguishes instances sharing a service name. -/
def mkSvcEvent (nm svc id : String) : Event :=
  { Topic := Topic.ServiceHealth
    Index := 8
    Key := svc
    Payload := EventPayload.ServiceHealth
      { Op := CatalogOp.Register
        CheckServiceNode := { Node := { Node := nm }, Service := some { ID := id, Service := svc }, Checks := [] } } }

/-- Eight collected events: six distinct bare nodes plus two instances of
service `web` on node `m`, the `i1` instance before the `i2` instance. -/
def c2Input : List Event :=
  [mkBareEvent "b", mkBareEvent "z", mkBareEvent "c", mkBareEvent "d", mkBareEvent "e",
    mkBareEvent "f", mkSvcEvent "m" "web" "i1", mkSvcEvent "m" "web" "i2"]

/-- What the modelled `sort.Slice` actually returns on `c2Input`: the two
equal-key `m` events come out with `i2` before `i1`. -/
def c2Output : List Event :=
  [mkBareEvent "b", mkBareEvent "c", mkBareEvent "d", mkBareEvent "e", mkBareEvent "f",
    mkSvcEvent "m" "web" "i2", mkSvcEvent "m" "web" "i1", mkBareEvent "z"]

/-- The unique output a stable sort would have to return on `c2Input`
(equal-key events in input order, `i1` before `i2`). -/
def c2StableOutput : List Event :=
  [mkBareEvent "b", mkBareEvent "c", mkBareEvent "d", mkBareEvent "e", mkBareEvent "f",
    mkSvcEvent "m" "web" "i1", mkSvcEvent "m" "web" "i2", mkBareEvent "z"]

/-- Counterexample to claim C2 as stated: the orderer is not a stable sort.
On the eight-event input `c2Input` the two events with the equal key
`("m", "web")` enter in the order `i1`, `i2` but leave in the order `i2`,
`i1` — the initial gap-6 Shell-sort pass of the Go toolchain's `sort.Slice`
jumps the `i2` event over the `i1` event — so the output differs from the
unique stable result. -/
theorem claim_C2_stable_sort_counterexample :
    sortSliceSmall eventLess c2Input = c2Output ∧
    c2Output ≠ c2StableOutput ∧
    eventKey (mkSvcEvent "m" "web" "i1") = eventKey (mkSvcEvent "m" "web" "i2") ∧
    c2Input.indexOf (mkSvcEvent "m" "web" "i1") < c2Input.indexOf (mkSvcEvent "m" "web" "i2") ∧
    c2Output.indexOf (mkSvcEvent "m" "web" "i2") < c2Output.indexOf (mkSvcEvent "m" "web" "i1") := by
  refine ⟨by decide, by decide, rfl, by decide, by decide⟩

/-- Claim C2, amended: every output of the orderer is a permutation of its
input sorted ascending and lexicographically by (node name, then service
routing key), with a bare node's empty key first since the empty string is
the minimum; the three-event example sorts exactly as the claim shows.
Events with equal keys, however, may leave in either order: `sort.Slice`
is not guaranteed stable (see the counterexample). -/
theorem claim_C2_orderer_sorted :
    (∀ input output : List Event, SortSliceContract eventLess input output →
      output.Perm input ∧
      output.Pairwise (fun x y => keyLt (eventKey x) (eventKey y) ∨ eventKey x = eventKey y)) ∧
    sortSliceSmall eventLess [mkBareEvent "z", mkSvcEvent "a" "svc1" "s1", mkBareEvent "a"] =
      [mkBareEvent "a", mkSvcEvent "a" "svc1" "s1", mkBareEvent "z"] := by
  constructor
  · intro input output h
    exact ⟨h.1, contract_pairwise_keyLe input output h⟩
  · decide

/-- Witness for the amended claim C2, at a concrete two-event contract
instance. -/
theorem claim_C2_orderer_sorted_witness :
    [mkBareEvent "a", mkBareEvent "z"].Perm [mkBareEvent "z", mkBareEvent "a"] ∧
    [mkBareEvent "a", mkBareEvent "z"].Pairwise
      (fun x y => keyLt (eventKey x) (eventKey y) ∨ eventKey x = eventKey y) :=
  claim_C2_orderer_sorted.1 [mkBareEvent "z", mkBareEvent "a"] [mkBareEvent "a", mkBareEvent "z"]
    ⟨by decide, by decide⟩

/-- Events the expansion loop contributes for one `nodes` map entry on the
success path. -/
def nodeEvents (r : Resolver) (idx : Nat) (p : String × Bool) : List Event :=
  if p.2 then [serviceHealthDeregisterEvent idx p.1] else (r p.1).1

theorem collect_ok_eq_flatMap (r : Resolver) (idx : Nat) :
    ∀ iter : List (String × Bool), (collectServiceHealthEvents r idx iter).2 = none →
      (collectServiceHealthEvents r idx iter).1 = iter.flatMap (nodeEvents r idx) := by
  intro iter
  induction iter with
  | nil => intro _; rfl
  | cons q rest ih =>
    obtain ⟨node, dereg⟩ := q
    intro hok
    cases dereg with
    | true =>
      cases hrec : collectServiceHealthEvents r idx rest with
      | mk evs err =>
        cases err with
        | some e =>
          exfalso
          simp only [collectServiceHealthEvents, hrec] at hok
          simp at hok
        | none =>
          have hrest := ih (by rw [hrec])
          rw [hrec] at hrest
          simp [collectServiceHealthEvents, hrec, nodeEvents]
          exact hrest
    | false =>
      cases hr : r node with
      | mk evt err =>
        cases err with
        | some e =>
          exfalso
          simp only [collectServiceHealthEvents, hr] at hok
          simp at hok
        | none =>
          cases hrec : collectServiceHealthEvents r idx rest with
          | mk evs err2 =>
            cases err2 with
            | some e =>
              exfalso
              simp only [collectServiceHealthEvents, hr, hrec] at hok
              simp at hok
            | none =>
              have hrest := ih (by rw [hrec])
              rw [hrec] at hrest
              simp [collectServiceHealthEvents, hr, hrec, nodeEvents]
              exact hrest

/-- Total order on events used for the uniqueness argument: strictly
smaller key, or identical event. -/
def keyOrder (x y : Event) : Prop := keyLt (eventKey x) (eventKey y) ∨ x = y

theorem keyOrder_antisymm : ∀ x y : Event, keyOrder x y → keyOrder y x → x = y := by
  intro x y h1 h2
  rcases h1 with h1 | h1
  · rcases h2 with h2 | h2
    · exact absurd h2 (keyLt_asymm _ _ h1)
    · exact h2.symm
  · exact h1

theorem pairwise_keyOrder_of_nodup (l : List Event)
    (hp : l.Pairwise (fun x y => keyLt (eventKey x) (eventKey y) ∨ eventKey x = eventKey y))
    (hnd : (l.map eventKey).Nodup) : l.Pairwise keyOrder := by
  have hnd2 : l.Pairwise (fun x y => eventKey x ≠ eventKey y) := List.pairwise_map.mp hnd
  refine (hp.and hnd2).imp ?_
  intro a b hab
  obtain ⟨h1, hne⟩ := hab
  rcases h1 with h1 | h1
  · exact Or.inl h1
  · exact absurd h1 hne

/-- Claim C4, amended: for a fixed resolver and batch, any two successful
materializations are permutations of each other and both sorted ascending
by the lexicographic key; they are byte-identical whenever no two events
share a sort key.  (With duplicate keys — two instances of one service name
on one node — the random map iteration order combined with the unstable
sort can interleave the equal-key events differently between runs; see the
counterexample.) -/
theorem claim_C4_determinism :
    ∀ (r : Resolver) (idx : Nat) (ops : TxnOps) (out1 out2 : List Event × Option Err),
      txnServiceHealthEvents r idx ops out1 → txnServiceHealthEvents r idx ops out2 →
      out1.2 = none → out2.2 = none →
      out1.1.Perm out2.1 ∧
      out1.1.Pairwise (fun x y => keyLt (eventKey x) (eventKey y) ∨ eventKey x = eventKey y) ∧
      ((out1.1.map eventKey).Nodup → out1 = out2) := by
  intro r idx ops out1 out2 hrel1 hrel2 hn1 hn2
  obtain ⟨iter1, hp1, hok1, herr1⟩ := hrel1
  obtain ⟨iter2, hp2, hok2, herr2⟩ := hrel2
  cases hcol1 : (collectServiceHealthEvents r idx iter1).2 with
  | some e => rw [herr1 e hcol1] at hn1; cases hn1
  | none =>
    cases hcol2 : (collectServiceHealthEvents r idx iter2).2 with
    | some e => rw [herr2 e hcol2] at hn2; cases hn2
    | none =>
      obtain ⟨s1, hc1, hout1⟩ := hok1 hcol1
      obtain ⟨s2, hc2, hout2⟩ := hok2 hcol2
      subst hout1
      subst hout2
      have hflat1 := collect_ok_eq_flatMap r idx iter1 hcol1
      have hflat2 := collect_ok_eq_flatMap r idx iter2 hcol2
      have hperm12 : (collectServiceHealthEvents r idx iter1).1.Perm
          (collectServiceHealthEvents r idx iter2).1 := by
        rw [hflat1, hflat2]
        exact (hp1.trans hp2.symm).flatMap_right _
      have hs12 : s1.Perm s2 := (hc1.1.trans hperm12).trans hc2.1.symm
      refine ⟨hs12, contract_pairwise_keyLe _ _ hc1, ?_⟩
      intro hnd
      have hpair1 := contract_pairwise_keyLe _ _ hc1
      have hpair2 := contract_pairwise_keyLe _ _ hc2
      have hnd2 : (s2.map eventKey).Nodup := (hs12.map eventKey).nodup hnd
      have hso1 : s1.Pairwise keyOrder := pairwise_keyOrder_of_nodup s1 hpair1 hnd
      have hso2 : s2.Pairwise keyOrder := pairwise_keyOrder_of_nodup s2 hpair2 hnd2
      haveI : IsAntisymm Event keyOrder := ⟨keyOrder_antisymm⟩
      have heq : s1 = s2 := List.eq_of_perm_of_sorted hs12 hso1 hso2
      rw [heq]

/-- A service register mutation on node `nm` with instance id `id`. -/
def svcRegOp (nm id : String) : TxnOp :=
  { Node := none
    Service := some { Verb := ServiceVerb.ServiceSet, Node := nm, Service := { ID := id, Service := "web" } }
    Check := none }

/-- A seven-node batch whose resolver produces the eight events of
`c2Input`: six bare nodes plus two instances of `web` on node `m`. -/
def ops4 : TxnOps :=
  [svcRegOp "b" "x1", svcRegOp "z" "x2", svcRegOp "c" "x3", svcRegOp "d" "x4",
    svcRegOp "e" "x5", svcRegOp "f" "x6", svcRegOp "m" "x7"]

/-- Resolver for `ops4`: node `m` has two instances of service `web`
(equal sort keys), every other node resolves to one bare-node event. -/
def resolver4 : Resolver := fun n =>
  if n = "m" then ([mkSvcEvent "m" "web" "i1", mkSvcEvent "m" "web" "i2"], none)
  else ([mkBareEvent n], none)

/-- Counterexample to claim C4 as stated: two runs of the pipeline on the
same batch and the same resolver — differing only in the unspecified map
iteration order — produce different byte sequences.  With the map iterated
in insertion order the collected slice is exactly `c2Input` and the sort
emits the equal-key `m` events as `i2`, `i1`; with `z` iterated after `f`
the shell pass never fires and they come out `i1`, `i2`. -/
theorem claim_C4_determinism_counterexample :
    txnServiceHealthEvents resolver4 8 ops4 (c2Output, none) ∧
    txnServiceHealthEvents resolver4 8 ops4 (c2StableOutput, none) ∧
    (c2Output, (none : Option Err)) ≠ (c2StableOutput, none) := by
  refine ⟨?_, ?_, by decide⟩
  · exact ⟨reduceNodes ops4, List.Perm.refl _,
      fun _ => ⟨c2Output, ⟨by decide, by decide⟩, rfl⟩,
      fun e he => Option.noConfusion he⟩
  · exact ⟨[("b", false), ("c", false), ("d", false), ("e", false), ("f", false),
        ("z", false), ("m", false)],
      by decide,
      fun _ => ⟨c2StableOutput, ⟨by decide, by decide⟩, rfl⟩,
      fun e he => Option.noConfusion he⟩

/-- Witness for the amended claim C4, at a concrete distinct-key run. -/
theorem claim_C4_determinism_witness :
    ([upsertEventA], (none : Option Err)).1.Perm ([upsertEventA], (none : Option Err)).1 ∧
    ([upsertEventA], (none : Option Err)).1.Pairwise
      (fun x y => keyLt (eventKey x) (eventKey y) ∨ eventKey x = eventKey y) ∧
    ((([upsertEventA], (none : Option Err)).1.map eventKey).Nodup →
      ([upsertEventA], (none : Option Err)) = ([upsertEventA], (none : Option Err))) := by
  have relInst : txnServiceHealthEvents resolverA 5 [nodeDelOpA, svcRegOpA] ([upsertEventA], none) :=
    ⟨[("A", false)], List.Perm.refl _,
      fun _ => ⟨[upsertEventA], ⟨List.Perm.refl _, by simp⟩, rfl⟩,
      fun e he => Option.noConfusion he⟩
  exact claim_C4_determinism resolverA 5 [nodeDelOpA, svcRegOpA] _ _ relInst relInst rfl rfl
